import Mathlib

/-!
Shallow embedding of `blocker.py` (Website & App Blocker for Windows).

File and registry-value contents are modelled as `Str := List Char`.
Python's `str.split("\n")`, `"\n".join(...)`, `str.rstrip("\n")`,
`str.strip()` and `str.lower()` are modelled by `splitNL`, `joinNL`,
`rstripNL`, `pyStrip` and `pyLower` (ASCII whitespace and ASCII letters,
which covers every string the program manipulates).
-/

abbrev Str := List Char

/-- ASCII whitespace recognised by Python's default `str.strip()`. -/
def isWS (c : Char) : Bool :=
  c = ' ' || c = '\t' || c = '\n' || c = '\x0d' || c = '\x0b' || c = '\x0c'

/-- Python `s.strip()`: drop leading and trailing whitespace. -/
def pyStrip (s : Str) : Str :=
  ((s.dropWhile isWS).reverse.dropWhile isWS).reverse

/-- ASCII lowercasing of one character (Python `str.lower` on ASCII data). -/
def asciiLower (c : Char) : Char :=
  if 'A' ≤ c ∧ c ≤ 'Z' then Char.ofNat (c.toNat + 32) else c

/-- Python `s.lower()` on ASCII data. -/
def pyLower (s : Str) : Str := s.map asciiLower

/-- Python `s.rstrip("\n")`: drop trailing newline characters. -/
def rstripNL (s : Str) : Str :=
  (s.reverse.dropWhile (fun c => c = '\n')).reverse

/-- Python `s.split("\n")`: e.g. `"" ↦ [""]`, `"a\n" ↦ ["a", ""]`. -/
def splitNL : Str → List Str
  | [] => [[]]
  | c :: rest =>
    if c = '\n' then [] :: splitNL rest
    else
      match splitNL rest with
      | [] => [[c]]
      | chunk :: more => (c :: chunk) :: more

/-- Python `"\n".join(lines)`. -/
def joinNL : List Str → Str
  | [] => []
  | [x] => x
  | x :: y :: rest => x ++ '\n' :: joinNL (y :: rest)

/-! Hosts-file embedding (`block_sites`, `unblock_sites`, `remove_blocker_entries`) -/

def BLOCK_MARKER_START : Str := "# === WEBSITE BLOCKER START ===".toList

def BLOCK_MARKER_END : Str := "# === WEBSITE BLOCKER END ===".toList

def REDIRECT_IP : Str := "127.0.0.1".toList

/-- The line filter of `remove_blocker_entries`: walks the lines with an
`inside_block` flag, dropping marker lines and everything between them. -/
def stripRegion : List Str → Bool → List Str
  | [], _ => []
  | l :: ls, inside =>
    if pyStrip l = BLOCK_MARKER_START then stripRegion ls true
    else if pyStrip l = BLOCK_MARKER_END then stripRegion ls false
    else if inside then stripRegion ls inside
    else l :: stripRegion ls inside

/-- The `inside_block` flag after the filter has walked the given lines. -/
def regionState : List Str → Bool → Bool
  | [], b => b
  | l :: ls, inside =>
    if pyStrip l = BLOCK_MARKER_START then regionState ls true
    else if pyStrip l = BLOCK_MARKER_END then regionState ls false
    else regionState ls inside

/-- The dual scan (structure of `show_status`): collect the lines lying
inside the marker-delimited managed region. -/
def regionLines : List Str → Bool → List Str
  | [], _ => []
  | l :: ls, inside =>
    if pyStrip l = BLOCK_MARKER_START then regionLines ls true
    else if pyStrip l = BLOCK_MARKER_END then regionLines ls false
    else if inside then l :: regionLines ls inside
    else regionLines ls inside

/-- Model of `remove_blocker_entries(content)` from `blocker.py`. -/
def remove_blocker_entries (content : Str) : Str :=
  joinNL (stripRegion (splitNL content) false)

/-- The `block_lines` list built by `block_sites`. -/
def block_lines (sites : List Str) : List Str :=
  BLOCK_MARKER_START ::
    (sites.map (fun site => REDIRECT_IP ++ ' ' :: site) ++ [BLOCK_MARKER_END])

/-- The new hosts content written by `block_sites(sites)`:
`content.rstrip("\n") + "\n\n" + "\n".join(block_lines) + "\n"` applied
after `remove_blocker_entries`. -/
def block_sites_content (sites : List Str) (content : Str) : Str :=
  rstripNL (remove_blocker_entries content) ++
    '\n' :: '\n' :: (joinNL (block_lines sites) ++ ['\n'])

/-- Drop trailing empty lines (the line-level image of `rstrip("\n")`). -/
def dropTrailEmpty (L : List Str) : List Str :=
  (L.reverse.dropWhile (fun l => l.isEmpty)).reverse

/-- Model of `unblock_sites`: rewrite the hosts file with the region stripped. -/
def unblock_sites_content (content : Str) : Str :=
  remove_blocker_entries content

/-! Decimal rendering of naturals (Python `str(idx)` / `str(os.getpid())`) -/

/-- Fuel-driven decimal digit loop (most significant digit first),
the algorithm of `Nat.repr`. -/
def toDecCore : Nat → Nat → List Char → List Char
  | 0, _, ds => ds
  | fuel + 1, n, ds =>
    let d := Nat.digitChar (n % 10)
    let m := n / 10
    if m = 0 then d :: ds else toDecCore fuel m (d :: ds)

/-- Python `str(n)` for a natural number. -/
def natToStr (n : Nat) : Str := toDecCore (n + 1) n []

/-- Numeric value of an ASCII digit character. -/
def charVal (c : Char) : Nat := c.toNat - 48

/-! URL policy embedding (`apply_url_blocks`) -/

/-- One vendor policy location: its list of (value-name, value-data) pairs. -/
abbrev KeyVals := List (Str × Str)

/-- The clear loop of `apply_url_blocks`: repeatedly `EnumValue(key, 0)` /
`DeleteValue` until enumeration raises; on the success path this empties
the location. -/
def clearValues : KeyVals → KeyVals
  | [] => []
  | _ :: rest => clearValues rest

/-- Model of `winreg.SetValueEx`: overwrite the named value if present, else create it. -/
def setValueEx (name v : Str) : KeyVals → KeyVals
  | [] => [(name, v)]
  | (n, w) :: rest =>
    if n = name then (name, v) :: rest else (n, w) :: setValueEx name v rest

/-- The write loop `for idx, url in enumerate(urls, start=1): SetValueEx(key, str(idx), ...)`. -/
def writeEntries : List Str → Nat → KeyVals → KeyVals
  | [], _, vals => vals
  | u :: us, idx, vals => writeEntries us (idx + 1) (setValueEx (natToStr idx) u vals)

/-- Model of `apply_url_blocks(urls)` acting on the vendor policy locations
(success path of each per-location `try`): early return on an empty list,
otherwise clear every pre-existing value and write keys `"1".."N"`. -/
def apply_url_blocks (urls : List Str) (locs : List KeyVals) : List KeyVals :=
  if urls.isEmpty then locs
  else locs.map (fun vals => writeEntries urls 1 (clearValues vals))

/-- The entry list demanded by the ordinal invariant:
key `str(idx + i)` maps to the `i`-th pattern. -/
def ordinalEntriesFrom (idx : Nat) : List Str → KeyVals
  | [] => []
  | u :: us => (natToStr idx, u) :: ordinalEntriesFrom (idx + 1) us

/-! Process inventory and app enforcer -/

/-- Python `s.strip('"')`. -/
def stripQuotes (s : Str) : Str :=
  ((s.dropWhile (fun c => c = '"')).reverse.dropWhile (fun c => c = '"')).reverse

/-- Computation `line.split(",")[0].strip('"')` lowercased, from `get_running_processes`. -/
def tasklistName (line : Str) : Str :=
  pyLower (stripQuotes (line.takeWhile (fun c => ¬ c = ',')))

/-- The parsing loop of `get_running_processes` over the decoded output. -/
def parseTasklist (out : Str) : List Str :=
  (splitNL (pyStrip out)).foldr
    (fun line acc =>
      let l := pyStrip line
      if l.isEmpty then acc else tasklistName l :: acc) []

/-- Model of `get_running_processes()`: `none` models the `tasklist` call raising,
in which case the `except` handler returns an empty set. -/
def get_running_processes (rawOutput : Option Str) : List Str :=
  match rawOutput with
  | none => []
  | some out => parseTasklist out

/-- The per-app loop of `kill_blocked_apps`: returns (killed count,
list of apps for which a termination attempt was issued).  `killRaises a`
models `subprocess.call` raising for that app; a raising attempt is
counted as attempted but not killed, and the loop continues. -/
def killLoop : List Str → List Str → (Str → Bool) → Nat × List Str
  | [], _, _ => (0, [])
  | a :: rest, running, killRaises =>
    let r := killLoop rest running killRaises
    if pyLower a ∈ running then
      (if killRaises a then r.1 else r.1 + 1, a :: r.2)
    else r

/-- Model of `kill_blocked_apps(apps)` given the running-process snapshot. -/
def kill_blocked_apps (apps running : List Str) (killRaises : Str → Bool) :
    Nat × List Str :=
  if apps.isEmpty then (0, [])
  else killLoop apps running killRaises

/-! Daemon lock (`get_daemon_pid`, daemon start) -/

/-- Decimal value of a digit string. -/
def digitsVal (ds : Str) : Nat :=
  ds.foldl (fun acc c => acc * 10 + charVal c) 0

/-- Parse an all-digit string. -/
def parseDigits (ds : Str) : Option Int :=
  if ds ≠ [] ∧ ds.all (fun c => c.isDigit) then some (digitsVal ds : Nat) else none

/-- Python `int(s.strip())` (sign plus decimal digits); `none` models
`ValueError`. -/
def pyParseInt (s : Str) : Option Int :=
  match pyStrip s with
  | '+' :: ds => parseDigits ds
  | '-' :: ds => (parseDigits ds).map (fun n => -n)
  | ds => parseDigits ds

/-- Model of `get_daemon_pid()`: first component is the returned pid, second the
lock-file state afterwards (`none` = removed/absent).  `tasklistOk = false`
models the liveness query raising; `alive pid` models `str(pid) in output`. -/
def get_daemon_pid (lock : Option Str) (tasklistOk : Bool)
    (alive : Int → Bool) : Option Int × Option Str :=
  match lock with
  | none => (none, none)
  | some content =>
    match pyParseInt content with
    | none => (none, none)
    | some pid =>
      if tasklistOk = false then (none, none)
      else if alive pid then (some pid, some content)
      else (none, none)

/-- The `daemon` command's acquisition sequence: read the lock; if a live
pid was found (Python truthiness: pid 0 counts as absent), run
`stop_daemon()` (which re-reads the lock and kills the pid it finds);
finally `write_lock_file()`.  Returns the final lock-file state and the
list of pids against which a termination attempt was issued. -/
def daemon_acquire (lock : Option Str) (tasklistOk : Bool)
    (alive : Int → Bool) (mypid : Nat) : Option Str × List Int :=
  let r := get_daemon_pid lock tasklistOk alive
  match r.1 with
  | some pid =>
    if pid ≠ 0 then
      let r2 := get_daemon_pid r.2 tasklistOk alive
      match r2.1 with
      | some pid2 => (some (natToStr mypid), [pid2])
      | none => (some (natToStr mypid), [])
    else (some (natToStr mypid), [])
  | none => (some (natToStr mypid), [])

/-! Reconciliation orchestration (`main`: daemon loop and `block`) -/

/-- The desired state read from the config store (`blocked_sites.json`). -/
structure Config where
  blocked_sites : List Str
  blocked_urls : List Str
  blocked_apps : List Str

/-- The three OS resources the program mutates. -/
structure OSState where
  hosts : Str
  policy : List KeyVals
  running : List Str

/-- Observable collaborator calls, in program order. -/
inductive Ev
  | loadSpec
  | hostsWrite
  | policyWrite
  | appKill
  | browserRecycle
deriving DecidableEq

/-- Process table after `kill_blocked_apps`: processes whose forced kill
was issued and did not raise leave the table. -/
def killSurvivors (apps running : List Str) (killRaises : Str → Bool) :
    List Str :=
  running.filter
    (fun p => !(apps.any (fun a => decide (pyLower a = p) && !killRaises a)))

/-- One iteration of the daemon `while True` body:
`load_config(); block_sites; load_blocked_urls(); apply_url_blocks;
load_blocked_apps(); kill_blocked_apps` — and no browser restart. -/
def daemonTick (cfg : Config) (killRaises : Str → Bool) (st : OSState) :
    OSState × List Ev :=
  ({ hosts := block_sites_content cfg.blocked_sites st.hosts,
     policy := apply_url_blocks cfg.blocked_urls st.policy,
     running := killSurvivors cfg.blocked_apps st.running killRaises },
   [Ev.loadSpec, Ev.hostsWrite, Ev.loadSpec, Ev.policyWrite, Ev.loadSpec,
    Ev.appKill])

/-- The one-shot `block` command: the same three enforcement calls, then
`restart_browsers()` (session recycle; its process churn is not tracked
in `running`). -/
def block_command (cfg : Config) (killRaises : Str → Bool) (st : OSState) :
    OSState × List Ev :=
  ({ hosts := block_sites_content cfg.blocked_sites st.hosts,
     policy := apply_url_blocks cfg.blocked_urls st.policy,
     running := killSurvivors cfg.blocked_apps st.running killRaises },
   [Ev.loadSpec, Ev.hostsWrite, Ev.loadSpec, Ev.policyWrite, Ev.loadSpec,
    Ev.appKill, Ev.browserRecycle])

/-- The daemon loop over the per-tick snapshots of the config store:
each tick re-reads the config (freshness) and runs `daemonTick`. -/
def daemonLoop (killRaises : Str → Bool) :
    List Config → OSState → OSState × List Ev
  | [], st => (st, [])
  | cfg :: cfgs, st =>
    let r1 := daemonTick cfg killRaises st
    let r2 := daemonLoop killRaises cfgs r1.1
    (r2.1, r1.2 ++ r2.2)

/-! Hosts-file error model (`read_hosts` / `block_sites` I/O) -/

inductive PyErr
  | permissionError
deriving DecidableEq

/-- Model of `read_hosts()`: `open` then `read`; only `FileNotFoundError` is caught
(returning `""`); a permission error propagates. -/
def read_hosts (file : Option Str) (readDenied : Bool) : Except PyErr Str :=
  if readDenied then Except.error PyErr.permissionError
  else
    match file with
    | some c => Except.ok c
    | none => Except.ok []

/-- Model of `block_sites(sites)` as a file-state transformer: returns the hosts
file afterwards and the propagated exception, if any.  A denied write
(`open(..., "w")` raising) leaves the file untouched. -/
def block_sites_run (sites : List Str) (file : Option Str)
    (readDenied writeDenied : Bool) : Option Str × Option PyErr :=
  match read_hosts file readDenied with
  | Except.error e => (file, some e)
  | Except.ok content =>
    if writeDenied then (file, some PyErr.permissionError)
    else (some (block_sites_content sites content), none)

theorem joinNL_cons_cons (x y : Str) (rest : List Str) :
    joinNL (x :: y :: rest) = x ++ '\n' :: joinNL (y :: rest) := rfl

theorem splitNL_ne_nil (s : Str) : splitNL s ≠ [] := by
  induction s with
  | nil => simp [splitNL]
  | cons c rest ih =>
    rw [splitNL]
    split
    · simp
    · cases h : splitNL rest with
      | nil => simp
      | cons chunk more => simp

theorem joinNL_splitNL (s : Str) : joinNL (splitNL s) = s := by
  induction s with
  | nil => rfl
  | cons c rest ih =>
    rw [splitNL]
    split
    · rename_i hc
      cases h : splitNL rest with
      | nil => exact absurd h (splitNL_ne_nil rest)
      | cons chunk more =>
        rw [h] at ih
        rw [joinNL_cons_cons, hc]
        simpa using ih
    · cases h : splitNL rest with
      | nil => exact absurd h (splitNL_ne_nil rest)
      | cons chunk more =>
        rw [h] at ih
        cases more with
        | nil => simpa [joinNL] using congrArg (c :: ·) ih
        | cons z zs =>
          rw [joinNL_cons_cons] at ih ⊢
          simpa using ih

theorem splitNL_append (a b : Str) :
    splitNL (a ++ '\n' :: b) = splitNL a ++ splitNL b := by
  induction a with
  | nil => simp [splitNL]
  | cons c a' ih =>
    by_cases hc : c = '\n'
    · subst hc
      rw [List.cons_append, splitNL, if_pos rfl, ih, splitNL, if_pos rfl,
        List.cons_append]
    · rw [List.cons_append, splitNL, if_neg hc, ih, splitNL, if_neg hc]
      cases h : splitNL a' with
      | nil => exact absurd h (splitNL_ne_nil a')
      | cons chunk more => simp

theorem splitNL_mem_no_newline (s : Str) : ∀ l ∈ splitNL s, '\n' ∉ l := by
  induction s with
  | nil => simp [splitNL]
  | cons c rest ih =>
    rw [splitNL]
    split
    · intro l hl
      rcases List.mem_cons.mp hl with h | h
      · subst h; simp
      · exact ih l h
    · rename_i hc
      cases h : splitNL rest with
      | nil => exact absurd h (splitNL_ne_nil rest)
      | cons chunk more =>
        intro l hl
        rcases List.mem_cons.mp hl with h' | h'
        · subst h'
          intro hmem
          rcases List.mem_cons.mp hmem with h'' | h''
          · exact hc h''.symm
          · exact ih chunk (h ▸ List.mem_cons_self _ _) h''
        · exact ih l (h ▸ List.mem_cons_of_mem _ h')

theorem splitNL_of_no_newline (s : Str) (h : '\n' ∉ s) : splitNL s = [s] := by
  induction s with
  | nil => rfl
  | cons c rest ih =>
    rw [splitNL]
    have hc : ¬ c = '\n' := fun hc => h (hc ▸ List.mem_cons_self _ _)
    rw [if_neg hc, ih (fun hm => h (List.mem_cons_of_mem _ hm))]

theorem splitNL_joinNL (L : List Str) (hne : L ≠ [])
    (h : ∀ l ∈ L, '\n' ∉ l) : splitNL (joinNL L) = L := by
  induction L with
  | nil => exact absurd rfl hne
  | cons x rest ih =>
    cases rest with
    | nil =>
      exact splitNL_of_no_newline x (h x (List.mem_cons_self _ _))
    | cons y ys =>
      rw [joinNL_cons_cons, splitNL_append,
        splitNL_of_no_newline x (h x (List.mem_cons_self _ _)),
        ih (by simp) (fun l hl => h l (List.mem_cons_of_mem _ hl))]
      rfl

theorem dropWhile_append_concat (p : Char → Bool) (A : Str) (c : Char)
    (h : p c = false) :
    List.dropWhile p (A ++ [c]) = List.dropWhile p A ++ [c] := by
  induction A with
  | nil => simp [List.dropWhile, h]
  | cons a A' ih =>
    by_cases ha : p a
    · simp [List.dropWhile_cons, ha, ih]
    · simp [List.dropWhile_cons, ha]

theorem rstripNL_concat_of_ne (y : Str) (c : Char) (hc : c ≠ '\n') :
    rstripNL (y ++ [c]) = y ++ [c] := by
  unfold rstripNL
  rw [List.reverse_append, List.reverse_singleton, List.singleton_append,
    List.dropWhile_cons]
  simp [hc]

theorem rstripNL_append_newline (a : Str) :
    rstripNL (a ++ ['\n']) = rstripNL a := by
  unfold rstripNL
  rw [List.reverse_append, List.reverse_singleton, List.singleton_append,
    List.dropWhile_cons]
  simp

theorem rstripNL_idem (a : Str) : rstripNL (rstripNL a) = rstripNL a := by
  unfold rstripNL
  rw [List.reverse_reverse, List.dropWhile_idempotent]

theorem pyStrip_cons_of_not_ws (c : Char) (s : Str) (h : isWS c = false) :
    pyStrip (c :: s) = c :: (s.reverse.dropWhile isWS).reverse := by
  unfold pyStrip
  rw [List.dropWhile_cons, h, if_neg (by simp), List.reverse_cons,
    dropWhile_append_concat _ _ _ h, List.reverse_append,
    List.reverse_singleton, List.singleton_append]

theorem stripRegion_append (A B : List Str) (b : Bool) :
    stripRegion (A ++ B) b = stripRegion A b ++ stripRegion B (regionState A b) := by
  induction A generalizing b with
  | nil => rfl
  | cons l A' ih =>
    rw [List.cons_append, stripRegion, stripRegion, regionState]
    split
    · exact ih true
    · split
      · exact ih false
      · split
        · exact ih b
        · rw [List.cons_append, ih b]

theorem regionLines_append (A B : List Str) (b : Bool) :
    regionLines (A ++ B) b = regionLines A b ++ regionLines B (regionState A b) := by
  induction A generalizing b with
  | nil => rfl
  | cons l A' ih =>
    rw [List.cons_append, regionLines, regionLines, regionState]
    split
    · exact ih true
    · split
      · exact ih false
      · split
        · rw [List.cons_append, ih b]
        · exact ih b

theorem stripRegion_sublist (L : List Str) (b : Bool) :
    (stripRegion L b).Sublist L := by
  induction L generalizing b with
  | nil => simp [stripRegion]
  | cons l ls ih =>
    rw [stripRegion]
    split
    · exact (ih true).cons l
    · split
      · exact (ih false).cons l
      · split
        · exact (ih b).cons l
        · exact (ih b).cons₂ l

theorem stripRegion_markerFree (L : List Str) (b : Bool) :
    ∀ l ∈ stripRegion L b,
      pyStrip l ≠ BLOCK_MARKER_START ∧ pyStrip l ≠ BLOCK_MARKER_END := by
  induction L generalizing b with
  | nil => simp [stripRegion]
  | cons l ls ih =>
    rw [stripRegion]
    split
    · exact ih true
    · split
      · exact ih false
      · split
        · exact ih b
        · rename_i h1 h2 h3
          intro x hx
          rcases List.mem_cons.mp hx with h | h
          · exact h ▸ ⟨h1, h2⟩
          · exact ih b x h

theorem stripRegion_of_markerFree_false (L : List Str)
    (h : ∀ l ∈ L, pyStrip l ≠ BLOCK_MARKER_START ∧ pyStrip l ≠ BLOCK_MARKER_END) :
    stripRegion L false = L := by
  induction L with
  | nil => rfl
  | cons l ls ih =>
    rw [stripRegion, if_neg (h l (List.mem_cons_self _ _)).1,
      if_neg (h l (List.mem_cons_self _ _)).2, if_neg (by simp),
      ih (fun x hx => h x (List.mem_cons_of_mem _ hx))]

theorem stripRegion_of_markerFree_true (L : List Str)
    (h : ∀ l ∈ L, pyStrip l ≠ BLOCK_MARKER_START ∧ pyStrip l ≠ BLOCK_MARKER_END) :
    stripRegion L true = [] := by
  induction L with
  | nil => rfl
  | cons l ls ih =>
    rw [stripRegion, if_neg (h l (List.mem_cons_self _ _)).1,
      if_neg (h l (List.mem_cons_self _ _)).2, if_pos rfl,
      ih (fun x hx => h x (List.mem_cons_of_mem _ hx))]

theorem regionState_of_markerFree (L : List Str) (b : Bool)
    (h : ∀ l ∈ L, pyStrip l ≠ BLOCK_MARKER_START ∧ pyStrip l ≠ BLOCK_MARKER_END) :
    regionState L b = b := by
  induction L generalizing b with
  | nil => rfl
  | cons l ls ih =>
    rw [regionState, if_neg (h l (List.mem_cons_self _ _)).1,
      if_neg (h l (List.mem_cons_self _ _)).2,
      ih b (fun x hx => h x (List.mem_cons_of_mem _ hx))]

theorem regionLines_of_markerFree_false (L : List Str)
    (h : ∀ l ∈ L, pyStrip l ≠ BLOCK_MARKER_START ∧ pyStrip l ≠ BLOCK_MARKER_END) :
    regionLines L false = [] := by
  induction L with
  | nil => rfl
  | cons l ls ih =>
    rw [regionLines, if_neg (h l (List.mem_cons_self _ _)).1,
      if_neg (h l (List.mem_cons_self _ _)).2, if_neg (by simp),
      ih (fun x hx => h x (List.mem_cons_of_mem _ hx))]

theorem joinNL_append (A B : List Str) (hA : A ≠ []) (hB : B ≠ []) :
    joinNL (A ++ B) = joinNL A ++ '\n' :: joinNL B := by
  induction A with
  | nil => exact absurd rfl hA
  | cons x A' ih =>
    cases A' with
    | nil =>
      cases B with
      | nil => exact absurd rfl hB
      | cons b bs => simp [joinNL_cons_cons, joinNL]
    | cons y A'' =>
      rw [List.cons_append, List.cons_append, joinNL_cons_cons,
        ← List.cons_append, ih (by simp), joinNL_cons_cons]
      simp

theorem joinNL_concat (A : List Str) (x : Str) (h : A ≠ []) :
    joinNL (A ++ [x]) = joinNL A ++ '\n' :: x :=
  joinNL_append A [x] h (by simp)

theorem rstripNL_joinNL (K : List Str) (hK : ∀ l ∈ K, '\n' ∉ l) :
    rstripNL (joinNL K) = joinNL (dropTrailEmpty K) := by
  induction K using List.reverseRecOn with
  | nil => rfl
  | append_singleton A x ih =>
    by_cases hx : x = []
    · subst hx
      cases hA : A with
      | nil => rfl
      | cons a A' =>
        rw [joinNL_concat _ _ (by simp [hA]), ← hA]
        have h1 : joinNL A ++ '\n' :: ([] : Str) = joinNL A ++ ['\n'] := rfl
        rw [h1, rstripNL_append_newline,
          ih (fun l hl => hK l (List.mem_append_left _ hl))]
        unfold dropTrailEmpty
        rw [List.reverse_append, List.reverse_singleton, List.singleton_append,
          List.dropWhile_cons]
        simp
    · rcases (List.eq_nil_or_concat x).resolve_left hx with ⟨x', c, hxc⟩
      rw [List.concat_eq_append] at hxc
      have hc : c ≠ '\n' := by
        intro hc
        exact hK x (List.mem_append_right _ (List.mem_singleton_self x))
          (by rw [hxc, hc]; exact List.mem_append_right _ (by simp))
      have hRHS : dropTrailEmpty (A ++ [x]) = A ++ [x] := by
        unfold dropTrailEmpty
        rw [List.reverse_append, List.reverse_singleton, List.singleton_append,
          List.dropWhile_cons]
        simp [hx]
      rw [hRHS]
      cases hA : A with
      | nil =>
        rw [List.nil_append, joinNL, hxc, rstripNL_concat_of_ne _ _ hc]
      | cons a A' =>
        rw [joinNL_concat _ _ (by simp [hA]), ← hA, hxc]
        have h2 : joinNL A ++ '\n' :: (x' ++ [c]) =
            (joinNL A ++ '\n' :: x') ++ [c] := by simp
        rw [h2, rstripNL_concat_of_ne _ _ hc]

theorem mem_dropTrailEmpty (L : List Str) (l : Str) (h : l ∈ dropTrailEmpty L) :
    l ∈ L := by
  unfold dropTrailEmpty at h
  have hsub := (List.dropWhile_sublist (fun l : Str => l.isEmpty)
    (l := L.reverse)).subset
  exact List.mem_reverse.mp (hsub (List.mem_reverse.mp h))

theorem mem_splitNL_rstripNL_joinNL (K : List Str) (hK : ∀ l ∈ K, '\n' ∉ l) :
    ∀ l ∈ splitNL (rstripNL (joinNL K)), l = [] ∨ l ∈ K := by
  rw [rstripNL_joinNL K hK]
  cases hK' : dropTrailEmpty K with
  | nil =>
    intro l hl
    simp only [joinNL, splitNL, List.mem_singleton] at hl
    exact Or.inl hl
  | cons a A' =>
    rw [← hK']
    rw [splitNL_joinNL _ (by simp [hK'])
      (fun l hl => hK l (mem_dropTrailEmpty K l hl))]
    intro l hl
    exact Or.inr (mem_dropTrailEmpty K l hl)

theorem pyStrip_start : pyStrip BLOCK_MARKER_START = BLOCK_MARKER_START := by
  decide

theorem pyStrip_end : pyStrip BLOCK_MARKER_END = BLOCK_MARKER_END := by
  decide

theorem start_ne_end : BLOCK_MARKER_START ≠ BLOCK_MARKER_END := by decide

theorem pyStrip_nil_ne_start : pyStrip ([] : Str) ≠ BLOCK_MARKER_START := by
  decide

theorem pyStrip_nil_ne_end : pyStrip ([] : Str) ≠ BLOCK_MARKER_END := by
  decide

theorem pyStrip_entry_ne_markers (site : Str) :
    pyStrip (REDIRECT_IP ++ ' ' :: site) ≠ BLOCK_MARKER_START ∧
    pyStrip (REDIRECT_IP ++ ' ' :: site) ≠ BLOCK_MARKER_END := by
  have h1 : REDIRECT_IP ++ ' ' :: site =
      '1' :: ("27.0.0.1 ".toList ++ site) := rfl
  rw [h1, pyStrip_cons_of_not_ws _ _ (by decide)]
  constructor
  · intro h
    have h' := congrArg List.head? h
    rw [List.head?_cons, show BLOCK_MARKER_START.head? = some '#' from rfl] at h'
    exact absurd (Option.some.inj h') (by decide)
  · intro h
    have h' := congrArg List.head? h
    rw [List.head?_cons, show BLOCK_MARKER_END.head? = some '#' from rfl] at h'
    exact absurd (Option.some.inj h') (by decide)

theorem linesX_markerFree (content : Str) :
    ∀ l ∈ splitNL (rstripNL (remove_blocker_entries content)),
      pyStrip l ≠ BLOCK_MARKER_START ∧ pyStrip l ≠ BLOCK_MARKER_END := by
  intro l hl
  unfold remove_blocker_entries at hl
  have hK : ∀ x ∈ stripRegion (splitNL content) false, '\n' ∉ x := fun x hx =>
    splitNL_mem_no_newline content x ((stripRegion_sublist _ _).subset hx)
  rcases mem_splitNL_rstripNL_joinNL _ hK l hl with h | h
  · exact h ▸ ⟨pyStrip_nil_ne_start, pyStrip_nil_ne_end⟩
  · exact stripRegion_markerFree _ _ l h

theorem splitNL_block_sites_content (sites : List Str) (content : Str) :
    splitNL (block_sites_content sites content) =
      splitNL (rstripNL (remove_blocker_entries content)) ++
        [] :: (splitNL (joinNL (block_lines sites)) ++ [[]]) := by
  unfold block_sites_content
  rw [splitNL_append]
  congr 1
  rw [splitNL, if_pos rfl]
  congr 1
  rw [show joinNL (block_lines sites) ++ ['\n'] =
    joinNL (block_lines sites) ++ '\n' :: [] from rfl, splitNL_append]
  rfl

theorem stripRegion_block_suffix (sites : List Str) :
    stripRegion ([] :: (block_lines sites ++ [[]])) false = [[], []] := by
  rw [stripRegion, if_neg pyStrip_nil_ne_start, if_neg pyStrip_nil_ne_end,
    if_neg (by simp)]
  congr 1
  unfold block_lines
  rw [List.cons_append, stripRegion, if_pos pyStrip_start, List.append_assoc,
    stripRegion_append]
  have hent : ∀ l ∈ sites.map (fun site => REDIRECT_IP ++ ' ' :: site),
      pyStrip l ≠ BLOCK_MARKER_START ∧ pyStrip l ≠ BLOCK_MARKER_END := by
    intro l hl
    rcases List.mem_map.mp hl with ⟨site, _, rfl⟩
    exact pyStrip_entry_ne_markers site
  rw [stripRegion_of_markerFree_true _ hent, regionState_of_markerFree _ _ hent,
    List.singleton_append, stripRegion, if_neg (pyStrip_end ▸ start_ne_end ∘ Eq.symm),
    if_pos pyStrip_end, stripRegion, if_neg pyStrip_nil_ne_start,
    if_neg pyStrip_nil_ne_end, if_neg (by simp)]
  rfl

theorem block_lines_no_newline (sites : List Str)
    (hs : ∀ site ∈ sites, '\n' ∉ site) :
    ∀ l ∈ block_lines sites, '\n' ∉ l := by
  intro l hl
  unfold block_lines at hl
  rcases List.mem_cons.mp hl with h | h
  · subst h; decide
  · rcases List.mem_append.mp h with h' | h'
    · rcases List.mem_map.mp h' with ⟨site, hsite, rfl⟩
      intro hmem
      rcases List.mem_append.mp hmem with hm | hm
      · revert hm; decide
      · rcases List.mem_cons.mp hm with hm' | hm'
        · exact absurd hm'.symm (by decide)
        · exact hs site hsite hm'
    · rw [List.mem_singleton.mp h']
      decide

/-- Stripping the region out of the content written by `block_sites`
recovers the pre-write region-free content plus two trailing newlines. -/
theorem remove_after_block (sites : List Str) (content : Str)
    (hs : ∀ site ∈ sites, '\n' ∉ site) :
    remove_blocker_entries (block_sites_content sites content) =
      rstripNL (remove_blocker_entries content) ++ ['\n', '\n'] := by
  have hJ : splitNL (joinNL (block_lines sites)) = block_lines sites :=
    splitNL_joinNL _ (by simp [block_lines]) (block_lines_no_newline sites hs)
  show joinNL (stripRegion (splitNL (block_sites_content sites content)) false) = _
  rw [splitNL_block_sites_content, hJ, stripRegion_append,
    stripRegion_of_markerFree_false _ (linesX_markerFree content),
    regionState_of_markerFree _ _ (linesX_markerFree content),
    stripRegion_block_suffix,
    joinNL_append _ _ (splitNL_ne_nil _) (by simp), joinNL_splitNL]
  rfl

theorem charVal_digitChar (d : Nat) (h : d < 10) :
    charVal (Nat.digitChar d) = d := by
  interval_cases d <;> decide

theorem toDecCore_eq_digits (fuel n : Nat) (ds : List Char) (h : n < fuel)
    (hn : 0 < n) :
    toDecCore fuel n ds =
      ((Nat.digits 10 n).map Nat.digitChar).reverse ++ ds := by
  induction fuel generalizing n ds with
  | zero => omega
  | succ f ih =>
    rw [toDecCore]
    by_cases hm : n / 10 = 0
    · rw [if_pos hm]
      rw [Nat.digits_def' (by norm_num : (1 : Nat) < 10) hn, hm]
      simp
    · rw [if_neg hm]
      have hm1 : 0 < n / 10 := Nat.pos_of_ne_zero hm
      have hlt : n / 10 < f := by
        have hself : n / 10 < n := Nat.div_lt_self hn (by norm_num)
        omega
      rw [ih (n / 10) _ hlt hm1, Nat.digits_def' (by norm_num : (1 : Nat) < 10) hn]
      simp

theorem decode_natToStr (n : Nat) :
    Nat.ofDigits 10 (((natToStr n).map charVal).reverse) = n := by
  by_cases hn : n = 0
  · subst hn; decide
  · have hn' : 0 < n := Nat.pos_of_ne_zero hn
    rw [natToStr, toDecCore_eq_digits (n + 1) n [] (Nat.lt_succ_self n) hn',
      List.append_nil, ← List.map_reverse, List.reverse_reverse, List.map_map]
    have hmap : (Nat.digits 10 n).map (charVal ∘ Nat.digitChar) =
        Nat.digits 10 n := by
      rw [show Nat.digits 10 n = (Nat.digits 10 n).map id by simp]
      rw [List.map_map]
      apply List.map_congr_left
      intro d hd
      simp only [Function.comp_apply, id]
      exact charVal_digitChar d (Nat.digits_lt_base (by norm_num) (by simpa using hd))
    rw [hmap, Nat.ofDigits_digits]

theorem natToStr_injective : Function.Injective natToStr := by
  intro a b h
  have ha := decode_natToStr a
  rw [h, decode_natToStr b] at ha
  exact ha.symm

theorem clearValues_eq_nil (vals : KeyVals) : clearValues vals = [] := by
  induction vals with
  | nil => rfl
  | cons p rest ih => rw [clearValues, ih]

theorem setValueEx_fresh (name v : Str) (vals : KeyVals)
    (h : ∀ p ∈ vals, p.1 ≠ name) :
    setValueEx name v vals = vals ++ [(name, v)] := by
  induction vals with
  | nil => rfl
  | cons p rest ih =>
    obtain ⟨n, w⟩ := p
    rw [setValueEx, if_neg (h (n, w) (List.mem_cons_self _ _)),
      ih (fun q hq => h q (List.mem_cons_of_mem _ hq)), List.cons_append]

theorem writeEntries_fresh (us : List Str) (idx : Nat) (vals : KeyVals)
    (h : ∀ p ∈ vals, ∀ j, idx ≤ j → p.1 ≠ natToStr j) :
    writeEntries us idx vals = vals ++ ordinalEntriesFrom idx us := by
  induction us generalizing idx vals with
  | nil => simp [writeEntries, ordinalEntriesFrom]
  | cons u us ih =>
    rw [writeEntries,
      setValueEx_fresh _ _ _ (fun p hp => h p hp idx le_rfl),
      ih (idx + 1) _ ?_, List.append_assoc, ordinalEntriesFrom,
      List.singleton_append]
    intro p hp j hj
    rcases List.mem_append.mp hp with hp' | hp'
    · exact h p hp' j (by omega)
    · rw [List.mem_singleton.mp hp']
      intro heq
      exact absurd (natToStr_injective heq) (by omega)

theorem ordinalEntriesFrom_length (idx : Nat) (us : List Str) :
    (ordinalEntriesFrom idx us).length = us.length := by
  induction us generalizing idx with
  | nil => rfl
  | cons u us ih => simp [ordinalEntriesFrom, ih]

theorem ordinalEntriesFrom_keys (idx : Nat) (us : List Str) :
    (ordinalEntriesFrom idx us).map Prod.fst =
      (List.range us.length).map (fun i => natToStr (idx + i)) := by
  induction us generalizing idx with
  | nil => rfl
  | cons u us ih =>
    rw [ordinalEntriesFrom, List.map_cons, ih (idx + 1), List.length_cons,
      List.range_succ_eq_map, List.map_cons, List.map_map]
    congr 1
    apply List.map_congr_left
    intro i hi
    simp only [Function.comp_apply]
    congr 1
    omega
  

theorem ordinalEntriesFrom_lookup_none (k idx : Nat) (us : List Str)
    (h : k < idx ∨ idx + us.length ≤ k) :
    List.lookup (natToStr k) (ordinalEntriesFrom idx us) = none := by
  induction us generalizing idx with
  | nil => rfl
  | cons u us ih =>
    rw [ordinalEntriesFrom, List.lookup]
    have hne : k ≠ idx := by
      rcases h with h | h
      · omega
      · simp only [List.length_cons] at h; omega
    rw [beq_eq_false_iff_ne.mpr (fun heq => hne (natToStr_injective heq))]
    apply ih (idx + 1)
    rcases h with h | h
    · omega
    · simp only [List.length_cons] at h; omega

theorem ordinalEntriesFrom_get (us : List Str) (idx i : Nat)
    (h : i < us.length) :
    (ordinalEntriesFrom idx us).get
        ⟨i, by rw [ordinalEntriesFrom_length]; exact h⟩ =
      (natToStr (idx + i), us.get ⟨i, h⟩) := by
  induction us generalizing idx i with
  | nil => simp at h
  | cons u us ih =>
    cases i with
    | zero => simp [ordinalEntriesFrom]
    | succ i' =>
      have h' : i' < us.length := by simpa using h
      have hstep := ih (idx + 1) i' h'
      have harg : idx + 1 + i' = idx + (i' + 1) := by omega
      simp only [ordinalEntriesFrom, List.get_cons_succ, hstep, harg]

/-- C1 (amended): for every NONEMPTY pattern list, `apply_url_blocks`
leaves every vendor policy location holding exactly the ordinal keys
`"1".."N"`, key `str(i+1)` mapping to `patterns[i]`, any previous (longer)
entry set having been cleared first.  (For `N = 0` the function returns
early and leaves the locations untouched — see the counterexample.) -/
theorem C1_url_policy_ordinal_invariant (urls : List Str) (locs : List KeyVals)
    (h : urls ≠ []) :
    apply_url_blocks urls locs = locs.map (fun _ => ordinalEntriesFrom 1 urls) ∧
    (ordinalEntriesFrom 1 urls).map Prod.fst =
      (List.range urls.length).map (fun i => natToStr (i + 1)) ∧
    (∀ i (hi : i < urls.length),
      (ordinalEntriesFrom 1 urls).get
          ⟨i, by rw [ordinalEntriesFrom_length]; exact hi⟩ =
        (natToStr (i + 1), urls.get ⟨i, hi⟩)) ∧
    (∀ k, urls.length < k →
      List.lookup (natToStr k) (ordinalEntriesFrom 1 urls) = none) := by
  refine ⟨?_, ?_, ?_, ?_⟩
  · unfold apply_url_blocks
    rw [if_neg (by simp [h])]
    apply List.map_congr_left
    intro vals _
    rw [clearValues_eq_nil, writeEntries_fresh _ _ _ (by simp),
      List.nil_append]
  · rw [ordinalEntriesFrom_keys]
    apply List.map_congr_left
    intro i _
    congr 1
    omega
  · intro i hi
    have := ordinalEntriesFrom_get urls 1 i hi
    rw [this]
    congr 2
    omega
  · intro k hk
    exact ordinalEntriesFrom_lookup_none k 1 urls (Or.inr (by omega))

/-- C1 counterexample: with `patterns = []` (`N = 0`) the claim demands
that no ordinal key survive, but `apply_url_blocks` returns early and the
stale ordinal key `"1"` from a previous longer list is still present. -/
theorem C1_counterexample :
    apply_url_blocks [] [[(natToStr 1, ['x'])]] = [[(natToStr 1, ['x'])]] ∧
    List.lookup (natToStr 1)
        ((apply_url_blocks [] [[(natToStr 1, ['x'])]]).headD []) =
      some ['x'] := by
  constructor
  · rfl
  · rfl

/-- Witness for `C1_url_policy_ordinal_invariant` at a concrete input:
two patterns replace a previously longer (three-key) entry set. -/
theorem C1_witness :
    (([['a'], ['b']] : List Str) ≠ []) ∧
    apply_url_blocks [['a'], ['b']]
        [[(natToStr 1, ['x']), (natToStr 2, ['y']), (natToStr 3, ['z'])]] =
      [[(natToStr 1, ['a']), (natToStr 2, ['b'])]] := by
  refine ⟨by simp, ?_⟩
  rw [(C1_url_policy_ordinal_invariant [['a'], ['b']]
    [[(natToStr 1, ['x']), (natToStr 2, ['y']), (natToStr 3, ['z'])]]
    (by simp)).1]
  rfl

/-- C2 (amended): for every initial hosts content and every domain list
whose domains contain no newline character, `block_sites` followed by
`unblock_sites` leaves the hosts file equal to the initial content with
the managed region removed, up to trailing-newline normalization. -/
theorem C2_hosts_roundtrip (content : Str) (sites : List Str)
    (hs : ∀ site ∈ sites, '\n' ∉ site) :
    rstripNL (unblock_sites_content (block_sites_content sites content)) =
      rstripNL (remove_blocker_entries content) := by
  unfold unblock_sites_content
  rw [remove_after_block sites content hs,
    show rstripNL (remove_blocker_entries content) ++ ['\n', '\n'] =
      (rstripNL (remove_blocker_entries content) ++ ['\n']) ++ ['\n'] by simp,
    rstripNL_append_newline, rstripNL_append_newline, rstripNL_idem]

/-- C2 counterexample: a "domain" containing a newline followed by the
end-marker text closes the managed region early, so a redirect line for
the next domain survives `unblock_sites`: the claim fails for this
domain list. -/
theorem C2_counterexample :
    rstripNL (unblock_sites_content (block_sites_content
        ['\n' :: BLOCK_MARKER_END, "evil.com".toList] [])) ≠
      rstripNL (remove_blocker_entries []) := by
  decide

/-- Witness for `C2_hosts_roundtrip` at a concrete input. -/
theorem C2_witness :
    (∀ site ∈ [("a.com".toList : Str)], '\n' ∉ site) ∧
    rstripNL (unblock_sites_content (block_sites_content ["a.com".toList]
        ("x\n127.0.0.1 keep\ny".toList))) =
      rstripNL (remove_blocker_entries ("x\n127.0.0.1 keep\ny".toList)) :=
  ⟨by decide, C2_hosts_roundtrip ("x\n127.0.0.1 keep\ny".toList)
    ["a.com".toList] (by decide)⟩

/-- C3: applying the same BlockSpec twice in a row yields identical
managed-region content (the lines between the markers, hence identical
bytes) and an identical policy-store entry set after the second
application. -/
theorem C3_idempotent (content : Str) (sites urls : List Str)
    (locs : List KeyVals) :
    regionLines (splitNL (block_sites_content sites
        (block_sites_content sites content))) false =
      regionLines (splitNL (block_sites_content sites content)) false ∧
    apply_url_blocks urls (apply_url_blocks urls locs) =
      apply_url_blocks urls locs := by
  constructor
  · have key : ∀ c : Str,
        regionLines (splitNL (block_sites_content sites c)) false =
          regionLines ([] :: (splitNL (joinNL (block_lines sites)) ++ [[]]))
            false := by
      intro c
      rw [splitNL_block_sites_content, regionLines_append,
        regionLines_of_markerFree_false _ (linesX_markerFree c),
        regionState_of_markerFree _ _ (linesX_markerFree c), List.nil_append]
    rw [key (block_sites_content sites content), key content]
  · by_cases hu : urls.isEmpty
    · simp [apply_url_blocks, hu]
    · unfold apply_url_blocks
      rw [if_neg (by simp [hu]), if_neg (by simp [hu]), List.map_map]
      apply List.map_congr_left
      intro vals _
      simp only [Function.comp_apply]
      rw [clearValues_eq_nil, clearValues_eq_nil]

/-- C4: with unrelated marker-free lines before (`P`) and after (`Q`) an
existing managed region `s :: M ++ [e]`, re-running `block_sites` with an
arbitrary domain list preserves every line outside the region: the result
is exactly the outside lines (normalized for trailing newlines) followed
by the freshly written region. -/
theorem C4_frame_preservation (P M Q D : List Str) (s e : Str)
    (hnl : ∀ l ∈ P ++ s :: (M ++ e :: Q), '\n' ∉ l)
    (hs : pyStrip s = BLOCK_MARKER_START)
    (he : pyStrip e = BLOCK_MARKER_END)
    (hP : ∀ l ∈ P, pyStrip l ≠ BLOCK_MARKER_START ∧ pyStrip l ≠ BLOCK_MARKER_END)
    (hM : ∀ l ∈ M, pyStrip l ≠ BLOCK_MARKER_START ∧ pyStrip l ≠ BLOCK_MARKER_END)
    (hQ : ∀ l ∈ Q, pyStrip l ≠ BLOCK_MARKER_START ∧ pyStrip l ≠ BLOCK_MARKER_END) :
    remove_blocker_entries (joinNL (P ++ s :: (M ++ e :: Q))) =
      joinNL (P ++ Q) ∧
    block_sites_content D (joinNL (P ++ s :: (M ++ e :: Q))) =
      rstripNL (joinNL (P ++ Q)) ++
        '\n' :: '\n' :: (joinNL (block_lines D) ++ ['\n']) := by
  have h1 : splitNL (joinNL (P ++ s :: (M ++ e :: Q))) =
      P ++ s :: (M ++ e :: Q) := splitNL_joinNL _ (by simp) hnl
  have hrem : remove_blocker_entries (joinNL (P ++ s :: (M ++ e :: Q))) =
      joinNL (P ++ Q) := by
    unfold remove_blocker_entries
    rw [h1, stripRegion_append, stripRegion_of_markerFree_false P hP,
      regionState_of_markerFree P false hP, stripRegion, if_pos hs,
      stripRegion_append, stripRegion_of_markerFree_true M hM,
      regionState_of_markerFree M true hM, stripRegion,
      if_neg (by rw [he]; intro hh; exact start_ne_end hh.symm), if_pos he,
      stripRegion_of_markerFree_false Q hQ, List.nil_append]
  exact ⟨hrem, by unfold block_sites_content; rw [hrem]⟩

/-- Witness for `C4_frame_preservation` at a concrete input. -/
theorem C4_witness :
    remove_blocker_entries (joinNL (["before".toList] ++
        BLOCK_MARKER_START :: (["127.0.0.1 old.com".toList] ++
          BLOCK_MARKER_END :: ["after".toList]))) =
      joinNL (["before".toList] ++ ["after".toList]) ∧
    block_sites_content ["new.com".toList] (joinNL (["before".toList] ++
        BLOCK_MARKER_START :: (["127.0.0.1 old.com".toList] ++
          BLOCK_MARKER_END :: ["after".toList]))) =
      rstripNL (joinNL (["before".toList] ++ ["after".toList])) ++
        '\n' :: '\n' :: (joinNL (block_lines ["new.com".toList]) ++ ['\n']) :=
  C4_frame_preservation ["before".toList] ["127.0.0.1 old.com".toList]
    ["after".toList] ["new.com".toList] BLOCK_MARKER_START BLOCK_MARKER_END
    (by decide) (by decide) (by decide) (by decide) (by decide) (by decide)

theorem killLoop_spec (apps running : List Str) (killRaises : Str → Bool) :
    (killLoop apps running killRaises).2 =
      apps.filter (fun a => decide (pyLower a ∈ running)) ∧
    (killLoop apps running killRaises).1 =
      (apps.filter
        (fun a => decide (pyLower a ∈ running) && !killRaises a)).length := by
  induction apps with
  | nil => exact ⟨rfl, rfl⟩
  | cons a rest ih =>
    rw [killLoop]
    by_cases hmem : pyLower a ∈ running
    · rw [if_pos hmem]
      by_cases hr : killRaises a
      · simp [List.filter_cons, hmem, hr, ih.1, ih.2]
      · simp [List.filter_cons, hmem, hr, ih.1, ih.2]
    · rw [if_neg hmem]
      simp [List.filter_cons, hmem, ih.1, ih.2]

/-- C5: `kill_blocked_apps` attempts termination exactly for the blocked
names whose lowercase form is in the snapshot, counts exactly the
attempts that did not raise (a raising attempt never aborts the rest),
and on running set `{a.exe, b.exe}` with blocked `[A.exe, C.exe]` it
attempts only `A.exe` and returns 1. -/
theorem C5_enforcer_selectivity (apps running : List Str)
    (killRaises : Str → Bool) :
    (kill_blocked_apps apps running killRaises).2 =
      apps.filter (fun a => decide (pyLower a ∈ running)) ∧
    (kill_blocked_apps apps running killRaises).1 =
      (apps.filter
        (fun a => decide (pyLower a ∈ running) && !killRaises a)).length ∧
    kill_blocked_apps ["A.exe".toList, "C.exe".toList]
        ["a.exe".toList, "b.exe".toList] (fun _ => false) =
      (1, ["A.exe".toList]) := by
  refine ⟨?_, ?_, by decide⟩
  · unfold kill_blocked_apps
    by_cases h : apps.isEmpty
    · rw [if_pos h, List.isEmpty_iff.mp h]
      rfl
    · rw [if_neg h]
      exact (killLoop_spec apps running killRaises).1
  · unfold kill_blocked_apps
    by_cases h : apps.isEmpty
    · rw [if_pos h, List.isEmpty_iff.mp h]
      rfl
    · rw [if_neg h]
      exact (killLoop_spec apps running killRaises).2

theorem killLoop_nil_running (apps : List Str) (killRaises : Str → Bool) :
    killLoop apps [] killRaises = (0, []) := by
  induction apps with
  | nil => rfl
  | cons a rest ih => rw [killLoop, if_neg (by simp), ih]

/-- C9: when the process-listing call raises, the snapshot is empty, so
the enforcer attempts nothing and returns 0 for every blocked list. -/
theorem C9_failed_snapshot_no_kills (apps : List Str)
    (killRaises : Str → Bool) :
    get_running_processes none = [] ∧
    kill_blocked_apps apps (get_running_processes none) killRaises =
      (0, []) := by
  refine ⟨rfl, ?_⟩
  show kill_blocked_apps apps [] killRaises = (0, [])
  unfold kill_blocked_apps
  by_cases h : apps.isEmpty
  · rw [if_pos h]
  · rw [if_neg h, killLoop_nil_running]

theorem daemonLoop_trace (killRaises : Str → Bool) (cfgs : List Config)
    (st : OSState) :
    (daemonLoop killRaises cfgs st).2 =
      (cfgs.map (fun _ => ([Ev.loadSpec, Ev.hostsWrite, Ev.loadSpec,
        Ev.policyWrite, Ev.loadSpec, Ev.appKill] : List Ev))).flatten := by
  induction cfgs generalizing st with
  | nil => rfl
  | cons c cs ih => simp [daemonLoop, daemonTick, ih]

theorem daemonLoop_append (killRaises : Str → Bool) (A B : List Config)
    (st : OSState) :
    daemonLoop killRaises (A ++ B) st =
      ((daemonLoop killRaises B (daemonLoop killRaises A st).1).1,
       (daemonLoop killRaises A st).2 ++
         (daemonLoop killRaises B (daemonLoop killRaises A st).1).2) := by
  induction A generalizing st with
  | nil => simp [daemonLoop]
  | cons c cs ih => simp [daemonLoop, ih]

/-- C6: a daemon tick performs exactly
read → hosts write → read → policy write → read → app kill, never a
browser recycle (also across a whole run of ticks); the one-shot `block`
command performs the same three enforcement calls then the recycle; and
the last tick's freshly read config is the one applied to the hosts
file. -/
theorem C6_orchestration_order (cfg : Config) (cfgs : List Config)
    (killRaises : Str → Bool) (st : OSState) :
    (daemonTick cfg killRaises st).2 =
      [Ev.loadSpec, Ev.hostsWrite, Ev.loadSpec, Ev.policyWrite, Ev.loadSpec,
        Ev.appKill] ∧
    Ev.browserRecycle ∉ (daemonTick cfg killRaises st).2 ∧
    (block_command cfg killRaises st).2 =
      (daemonTick cfg killRaises st).2 ++ [Ev.browserRecycle] ∧
    Ev.browserRecycle ∉ (daemonLoop killRaises cfgs st).2 ∧
    (daemonLoop killRaises (cfgs ++ [cfg]) st).1.hosts =
      block_sites_content cfg.blocked_sites
        ((daemonLoop killRaises cfgs st).1).hosts := by
  refine ⟨rfl, by simp [daemonTick], rfl, ?_, ?_⟩
  · rw [daemonLoop_trace]
    intro hmem
    rcases List.mem_flatten.mp hmem with ⟨l, hl, hml⟩
    rcases List.mem_map.mp hl with ⟨c, _, rfl⟩
    revert hml
    decide
  · rw [daemonLoop_append]
    rfl

/-- C8: a missing hosts file reads as empty content and `block_sites`
proceeds from it, while a permission-denied read or write propagates as
a `PermissionError` and leaves the hosts file untouched (no partial
application). -/
theorem C8_hosts_error_propagation (sites : List Str) (file : Option Str) :
    read_hosts none false = Except.ok [] ∧
    block_sites_run sites none false false =
      (some (block_sites_content sites []), none) ∧
    block_sites_run sites file true false =
      (file, some PyErr.permissionError) ∧
    block_sites_run sites file true true =
      (file, some PyErr.permissionError) ∧
    block_sites_run sites file false true =
      (file, some PyErr.permissionError) := by
  refine ⟨rfl, rfl, rfl, rfl, ?_⟩
  cases file <;> rfl

/-- C7: when the lock file's recorded pid parses but is not alive,
daemon acquisition discards the stale lock, attempts no termination, and
writes a fresh lock holding the current pid. -/
theorem C7_stale_lock_takeover (content : Str) (pid : Int)
    (alive : Int → Bool) (mypid : Nat)
    (hparse : pyParseInt content = some pid) (hdead : alive pid = false) :
    daemon_acquire (some content) true alive mypid =
      (some (natToStr mypid), []) := by
  have hg : get_daemon_pid (some content) true alive = (none, none) := by
    simp [get_daemon_pid, hparse, hdead]
  simp [daemon_acquire, hg]

/-- Witness for `C7_stale_lock_takeover` at a concrete input. -/
theorem C7_witness :
    daemon_acquire (some ("123".toList)) true (fun _ => false) 42 =
      (some (natToStr 42), []) :=
  C7_stale_lock_takeover ("123".toList) 123 (fun _ => false) 42
    (by decide) rfl

/-- C10: an unparseable lock-file content (or a failing liveness query)
makes `get_daemon_pid` delete the lock file and report that no daemon is
running. -/
theorem C10_bad_lock_removed (content : Str) (tasklistOk : Bool)
    (alive : Int → Bool)
    (h : pyParseInt content = none ∨ tasklistOk = false) :
    get_daemon_pid (some content) tasklistOk alive = (none, none) := by
  rcases h with h | h
  · simp [get_daemon_pid, h]
  · subst h
    simp only [get_daemon_pid]
    cases pyParseInt content <;> simp

/-- Witness for `C10_bad_lock_removed` at a concrete input. -/
theorem C10_witness :
    pyParseInt ("garbage".toList) = none ∧
    get_daemon_pid (some ("garbage".toList)) true (fun _ => true) =
      (none, none) :=
  ⟨by decide, C10_bad_lock_removed ("garbage".toList) true (fun _ => true)
    (Or.inl (by decide))⟩
